import Mathlib

/-!
Verification of the brewery-counting script (src/brewery-async.py).

The script's core is a pagination loop over an external HTTP directory API
and a concurrent fan-out/join dispatcher.  We embed them shallowly:

* The API is a function from page numbers to responses.  A response carries
  an HTTP status code and the decoded JSON array of brewery records; the
  loop only ever inspects the array's emptiness and length, so the record
  type is a type parameter.
* The while-True loop of get_brewery_count is embedded with explicit fuel:
  each unit of fuel licenses one page request, and the function returns
  none when fuel runs out before a stop condition fires.  Termination
  statements are phrased as: enough fuel yields some, and any extra fuel
  yields the same value.
* The returned Python dict is embedded as an association list from string
  keys to values, so the actual key names of the source (state and
  brewery_count) are observable.
* asyncio.gather is embedded as a fill-by-index execution: the tasks'
  results are written into a result buffer in an arbitrary completion
  order, each at its own task index, and the buffer is returned in index
  order.
-/

/-- A value stored in the returned Python dict: the source stores a string
(the state name) and an integer (the accumulated count). -/
inductive Val : Type where
  | str : String → Val
  | nat : Nat → Val
deriving DecidableEq, Repr

/-- A Python dict, embedded as an association list of string keys to values. -/
def PyDict : Type := List (String × Val)

instance : DecidableEq PyDict := inferInstanceAs (DecidableEq (List (String × Val)))

/-- One HTTP response: a status code and the decoded JSON array of brewery
records.  The loop body only uses the array's emptiness and length, so the
record type is a parameter. -/
structure Resp (α : Type) : Type where
  status_code : Nat
  breweries : List α
deriving DecidableEq

/-- The API, as seen from one state's pagination loop: each page number is
answered with a response. -/
def Api (α : Type) : Type := Nat → Resp α

/-- The URL built by the f-string on line 41 of the source:
https://api.openbrewerydb.org/v1/breweries?by_state={state}&per_page={per_page}&page={page}. -/
def brewery_url (state : String) (per_page page : Nat) : String :=
  "https://api.openbrewerydb.org/v1/breweries?by_state=" ++ state ++
    "&per_page=" ++ toString per_page ++ "&page=" ++ toString page

/-- The while-True pagination loop of get_brewery_count, with explicit fuel.
Each unit of fuel licenses one page request.  Mirrors the source order:
status check, emptiness check, accumulate the page length, short-page check,
else increment the page and loop.  Returns none when fuel is exhausted
before a stop condition fires. -/
def countUpTo {α : Type} (api : Api α) (per_page : Nat) :
    Nat → Nat → Nat → Option Nat
  | 0, _, _ => none
  | fuel + 1, page, count =>
    let r := api page
    if r.status_code ≠ 200 then some count
    else if r.breweries.isEmpty then some count
    else if r.breweries.length < per_page then some (count + r.breweries.length)
    else countUpTo api per_page fuel (page + 1) (count + r.breweries.length)

/-- get_brewery_count (src/brewery-async.py lines 13-66): page size fixed at
200, page counter starting at 1, count starting at 0; on loop exit returns
dict(state=state, brewery_count=count).  The fuel parameter bounds the
number of page requests; none models a run that never meets a stop
condition within that bound. -/
def get_brewery_count {α : Type} (api : Api α) (state : String) (fuel : Nat) :
    Option PyDict :=
  (countUpTo api 200 fuel 1 0).map
    (fun count => [("state", Val.str state), ("brewery_count", Val.nat count)])

/-- async_get_brewery_count: wraps the synchronous function in an executor;
its value is exactly the synchronous function's value. -/
def async_get_brewery_count {α : Type} (api : Api α) (state : String)
    (fuel : Nat) : Option PyDict :=
  get_brewery_count api state fuel

/-- The serial list comprehension of the script's main block (line 118):
one get_brewery_count call per state, in input order. -/
def serial_brewery_counts {α : Type} (api : String → Api α) (fuel : Nat)
    (states : List String) : List (Option PyDict) :=
  states.map (fun s => get_brewery_count (api s) s fuel)

/-- asyncio.gather, embedded as fill-by-index execution: given the tasks'
values and a completion order (a list of task indices), the result buffer
starts all-none and each completion writes the task's value at the task's
own index; the buffer is returned in index order.  An index out of range
writes nothing. -/
def gatherRun {α : Type} (results : List α) (order : List Nat) :
    List (Option α) :=
  order.foldl
    (fun acc i =>
      match results.get? i with
      | some v => acc.set i (some v)
      | none => acc)
    (List.replicate results.length none)

/-- get_brewery_counts_for_states (src/brewery-async.py lines 86-105): one
async task per state, in input order, joined by asyncio.gather.  The order
argument is the completion order of the underlying fetches. -/
def get_brewery_counts_for_states {α : Type} (api : String → Api α)
    (fuel : Nat) (states : List String) (order : List Nat) :
    List (Option (Option PyDict)) :=
  gatherRun (states.map (fun s => async_get_brewery_count (api s) s fuel)) order

/-- The loop's stop condition at one response: non-success status, empty
payload, or a short page. -/
def stopCond {α : Type} (r : Resp α) (per_page : Nat) : Prop :=
  r.status_code ≠ 200 ∨ r.breweries = [] ∨ r.breweries.length < per_page

instance {α : Type} [DecidableEq α] (r : Resp α) (per_page : Nat) :
    Decidable (stopCond r per_page) :=
  inferInstanceAs (Decidable (_ ∨ _ ∨ _))

/-- What a stopping page contributes to the count: its length if it passed
the status and emptiness checks (short page), nothing otherwise. -/
def pageContrib {α : Type} (r : Resp α) : Nat :=
  if r.status_code = 200 ∧ r.breweries.isEmpty = false then r.breweries.length
  else 0

/-! ### Loop lemmas -/

theorem countUpTo_step_stop {α : Type} (api : Api α) {per_page page : Nat}
    (h : stopCond (api page) per_page) (fuel count : Nat) :
    countUpTo api per_page (fuel + 1) page count =
      some (count + pageContrib (api page)) := by
  rcases h with h | h | h
  · simp [countUpTo, h, pageContrib]
  · by_cases hs : (api page).status_code = 200
    · simp [countUpTo, hs, h, pageContrib]
    · simp [countUpTo, hs, pageContrib]
  · by_cases hs : (api page).status_code = 200
    · by_cases he : (api page).breweries = []
      · simp [countUpTo, hs, he, pageContrib]
      · simp [countUpTo, hs, he, h, pageContrib]
    · simp [countUpTo, hs, pageContrib]

theorem countUpTo_step_continue {α : Type} (api : Api α) {per_page page : Nat}
    (h : ¬ stopCond (api page) per_page) (fuel count : Nat) :
    countUpTo api per_page (fuel + 1) page count =
      countUpTo api per_page fuel (page + 1)
        (count + (api page).breweries.length) := by
  rw [stopCond] at h
  push_neg at h
  obtain ⟨h1, h2, h3⟩ := h
  simp [countUpTo, h1, h2, Nat.not_lt.mpr h3]

theorem countUpTo_run {α : Type} (api : Api α) (per_page : Nat) :
    ∀ (m page count fuel : Nat),
      (∀ j, j < m → ¬ stopCond (api (page + j)) per_page) →
      countUpTo api per_page (m + fuel) page count =
        countUpTo api per_page fuel (page + m)
          (count + ∑ j ∈ Finset.range m, (api (page + j)).breweries.length) := by
  intro m
  induction m with
  | zero => intro page count fuel _; simp
  | succ m ih =>
    intro page count fuel h
    have hstep : countUpTo api per_page (m + fuel + 1) page count =
        countUpTo api per_page (m + fuel) (page + 1)
          (count + (api page).breweries.length) := by
      have h0 : ¬ stopCond (api page) per_page := by
        have := h 0 (Nat.succ_pos m)
        simpa using this
      exact countUpTo_step_continue api h0 (m + fuel) count
    have hrest : countUpTo api per_page (m + fuel) (page + 1)
        (count + (api page).breweries.length) =
        countUpTo api per_page fuel (page + 1 + m)
          (count + (api page).breweries.length +
            ∑ j ∈ Finset.range m, (api (page + 1 + j)).breweries.length) := by
      apply ih
      intro j hj
      have := h (j + 1) (Nat.succ_lt_succ hj)
      have harith : page + (j + 1) = page + 1 + j := by omega
      rwa [harith] at this
    have hsum : count + (api page).breweries.length +
          ∑ j ∈ Finset.range m, (api (page + 1 + j)).breweries.length =
        count + ∑ j ∈ Finset.range (m + 1), (api (page + j)).breweries.length := by
      rw [Finset.sum_range_succ']
      have h4 : ∀ j, page + 1 + j = page + (j + 1) := by intro j; omega
      simp only [h4, Nat.add_zero]
      omega
    have harith2 : page + 1 + m = page + (m + 1) := by omega
    have harith3 : m + 1 + fuel = m + fuel + 1 := by omega
    rw [harith3, hstep, hrest, hsum, harith2]

theorem countUpTo_none {α : Type} (api : Api α) (per_page : Nat)
    (fuel page count : Nat)
    (h : ∀ j, j < fuel → ¬ stopCond (api (page + j)) per_page) :
    countUpTo api per_page fuel page count = none := by
  have := countUpTo_run api per_page fuel page count 0 h
  simpa [countUpTo] using this

theorem countUpTo_mono {α : Type} (api : Api α) (per_page : Nat) :
    ∀ (fuel₁ fuel₂ page count c : Nat), fuel₁ ≤ fuel₂ →
      countUpTo api per_page fuel₁ page count = some c →
      countUpTo api per_page fuel₂ page count = some c := by
  intro fuel₁
  induction fuel₁ with
  | zero => intro fuel₂ page count c _ hc; simp [countUpTo] at hc
  | succ n ih =>
    intro fuel₂ page count c hle hc
    obtain ⟨m, rfl⟩ : ∃ m, fuel₂ = m + 1 :=
      ⟨fuel₂ - 1, by omega⟩
    by_cases hstop : stopCond (api page) per_page
    · rw [countUpTo_step_stop api hstop n count] at hc
      rw [countUpTo_step_stop api hstop m count]
      exact hc
    · rw [countUpTo_step_continue api hstop n count] at hc
      rw [countUpTo_step_continue api hstop m count]
      exact ih m (page + 1) (count + (api page).breweries.length) c
        (by omega) hc

theorem countUpTo_terminates {α : Type} (api : Api α) (per_page : Nat) :
    ∀ (j page count : Nat), stopCond (api (page + j)) per_page →
      ∃ c, countUpTo api per_page (j + 1) page count = some c := by
  intro j
  induction j with
  | zero =>
    intro page count h
    simp only [Nat.add_zero] at h
    exact ⟨count + pageContrib (api page), countUpTo_step_stop api h 0 count⟩
  | succ j ih =>
    intro page count h
    by_cases hstop : stopCond (api page) per_page
    · exact ⟨count + pageContrib (api page),
        countUpTo_step_stop api hstop (j + 1) count⟩
    · rw [countUpTo_step_continue api hstop (j + 1) count]
      apply ih
      have harith : page + (j + 1) = page + 1 + j := by omega
      rwa [harith] at h

/-! ### Gather lemmas -/

theorem gatherRun_fold {α : Type} (results : List α) :
    ∀ (order : List Nat) (acc : List (Option α)),
      acc.length = results.length →
      (∀ i, (h : i < results.length) →
        i ∈ order ∨ acc[i]? = some (some results[i])) →
      order.foldl
        (fun acc i =>
          match results.get? i with
          | some v => acc.set i (some v)
          | none => acc) acc = results.map some := by
  intro order
  induction order with
  | nil =>
    intro acc hlen hinv
    rw [List.foldl_nil]
    apply List.ext_getElem?
    intro n
    by_cases hn : n < results.length
    · have h := hinv n hn
      simp only [List.not_mem_nil, false_or] at h
      rw [h, List.getElem?_map, List.getElem?_eq_getElem hn]
      rfl
    · rw [List.getElem?_eq_none (by omega),
        List.getElem?_eq_none (by simp; omega)]
  | cons i rest ih =>
    intro acc hlen hinv
    rw [List.foldl_cons]
    cases hri : results.get? i with
    | some v =>
      have hilt : i < results.length := by
        rw [List.get?_eq_getElem?] at hri
        exact (List.getElem?_eq_some_iff.mp hri).1
      have hv : results[i] = v := by
        rw [List.get?_eq_getElem?, List.getElem?_eq_getElem hilt] at hri
        exact Option.some.inj hri
      apply ih
      · rw [List.length_set]; exact hlen
      · intro n hn
        by_cases hni : n = i
        · subst hni
          right
          rw [List.getElem?_set_self (by omega), hv]
        · rcases hinv n hn with hmem | hcorrect
          · rcases List.mem_cons.mp hmem with heq | hrest
            · exact absurd heq hni
            · exact Or.inl hrest
          · right
            rw [List.getElem?_set_ne (fun heq => hni heq.symm)]
            exact hcorrect
    | none =>
      have hile : results.length ≤ i := by
        rw [List.get?_eq_getElem?, List.getElem?_eq_none_iff] at hri
        exact hri
      apply ih
      · exact hlen
      · intro n hn
        rcases hinv n hn with hmem | hcorrect
        · rcases List.mem_cons.mp hmem with heq | hrest
          · omega
          · exact Or.inl hrest
        · exact Or.inr hcorrect

theorem gatherRun_eq_map_some {α : Type} (results : List α) (order : List Nat)
    (hcover : ∀ i, i < results.length → i ∈ order) :
    gatherRun results order = results.map some := by
  apply gatherRun_fold
  · exact List.length_replicate results.length none
  · intro i h
    exact Or.inl (hcover i h)

/-- First-stop characterization of the pagination loop: if page k is the
first page meeting a stop condition, the loop yields none with fewer than k
requests and, from k requests on, the sum of the lengths of pages 1..k-1
plus the stopping page's contribution. -/
theorem countUpTo_firstStop {α : Type} (api : Api α) (k : Nat) (hk1 : 1 ≤ k)
    (hkstop : stopCond (api k) 200)
    (hmin : ∀ p, p < k → 1 ≤ p → ¬ stopCond (api p) 200) :
    (∀ fuel, fuel < k → countUpTo api 200 fuel 1 0 = none) ∧
    (∀ fuel, k ≤ fuel → countUpTo api 200 fuel 1 0 =
      some ((∑ j ∈ Finset.range (k - 1), (api (1 + j)).breweries.length) +
        pageContrib (api k))) := by
  have hcore : countUpTo api 200 k 1 0 =
      some ((∑ j ∈ Finset.range (k - 1), (api (1 + j)).breweries.length) +
        pageContrib (api k)) := by
    have h1 : ∀ j, j < k - 1 → ¬ stopCond (api (1 + j)) 200 := by
      intro j hj
      exact hmin (1 + j) (by omega) (by omega)
    have hrun := countUpTo_run api 200 (k - 1) 1 0 1 h1
    have hk2 : k - 1 + 1 = k := by omega
    have hk3 : 1 + (k - 1) = k := by omega
    rw [hk2, hk3] at hrun
    rw [hrun]
    simpa using countUpTo_step_stop api hkstop 0
      (0 + ∑ j ∈ Finset.range (k - 1), (api (1 + j)).breweries.length)
  constructor
  · intro fuel hf
    apply countUpTo_none
    intro j hj
    exact hmin (1 + j) (by omega) (by omega)
  · intro fuel hf
    exact countUpTo_mono api 200 k fuel 1 0 _ hf hcore

/-- For every state, the page size is fixed at 200, the page counter starts
at 1 and increments by 1 per request, each page's item count is added to a
running total, and the loop exits exactly at the first page k meeting a stop
condition: non-success status, empty payload, or fewer items than the page
size.  C1. -/
theorem c1_get_brewery_count_pagination {α : Type} (api : Api α)
    (state : String) (k : Nat) (hk1 : 1 ≤ k)
    (hkstop : stopCond (api k) 200)
    (hmin : ∀ p, p < k → 1 ≤ p → ¬ stopCond (api p) 200) :
    (∀ fuel, fuel < k → get_brewery_count api state fuel = none) ∧
    (∀ fuel, k ≤ fuel → get_brewery_count api state fuel =
      some [("state", Val.str state),
        ("brewery_count", Val.nat
          ((∑ j ∈ Finset.range (k - 1), (api (1 + j)).breweries.length) +
            pageContrib (api k)))]) := by
  obtain ⟨hnone, hsome⟩ := countUpTo_firstStop api k hk1 hkstop hmin
  constructor
  · intro fuel hf
    simp [get_brewery_count, hnone fuel hf]
  · intro fuel hf
    simp [get_brewery_count, hsome fuel hf]

/-- A concrete two-page API for witnesses: page 1 full (200 records), every
later page short (5 records). -/
def wApiTwoPages : Api Unit := fun p =>
  if p = 1 then ⟨200, List.replicate 200 ()⟩ else ⟨200, List.replicate 5 ()⟩

set_option maxRecDepth 4000 in
theorem c1_get_brewery_count_pagination_witness :
    get_brewery_count wApiTwoPages "maryland" 1 = none ∧
    get_brewery_count wApiTwoPages "maryland" 2 =
      some [("state", Val.str "maryland"), ("brewery_count", Val.nat 205)] := by
  have h := c1_get_brewery_count_pagination wApiTwoPages "maryland" 2
    (by decide) (by decide) (by decide)
  refine ⟨h.1 1 (by decide), ?_⟩
  rw [h.2 2 (by decide)]
  decide

/-- If every page before k meets no stop condition and page k answers with a
non-success status, get_brewery_count returns the count accumulated from
pages 1..k-1 as its ordinary value.  The embedding is total, mirroring the
source, which has no try/raise around the loop: no error value exists to
propagate, the dict is returned normally.  C2. -/
theorem c2_failure_keeps_accumulated_count {α : Type} (api : Api α) (state : String)
    (k : Nat) (hk1 : 1 ≤ k) (hfail : (api k).status_code ≠ 200)
    (hmin : ∀ p, p < k → 1 ≤ p → ¬ stopCond (api p) 200) :
    ∀ fuel, k ≤ fuel → get_brewery_count api state fuel =
      some [("state", Val.str state),
        ("brewery_count", Val.nat
          (∑ j ∈ Finset.range (k - 1), (api (1 + j)).breweries.length))] := by
  intro fuel hf
  have hstop : stopCond (api k) 200 := Or.inl hfail
  obtain ⟨_, hsome⟩ := countUpTo_firstStop api k hk1 hstop hmin
  have hcontrib : pageContrib (api k) = 0 := by
    rw [pageContrib]
    simp [hfail]
  have hc := hsome fuel hf
  rw [hcontrib, Nat.add_zero] at hc
  simp [get_brewery_count, hc]

/-- A concrete API for witnesses: page 1 full (200 records), every later
page a status-500 failure. -/
def wApiFailPage2 : Api Unit := fun p =>
  if p = 1 then ⟨200, List.replicate 200 ()⟩ else ⟨500, []⟩

set_option maxRecDepth 4000 in
theorem c2_failure_keeps_accumulated_count_witness :
    get_brewery_count wApiFailPage2 "virginia" 2 =
      some [("state", Val.str "virginia"), ("brewery_count", Val.nat 200)] := by
  have h := c2_failure_keeps_accumulated_count wApiFailPage2 "virginia" 2
    (by decide) (by decide) (by decide)
  rw [h 2 (by decide)]
  decide

/-- If the API answers the first page with an empty payload, the count is 0
and one page request suffices (and at least one is needed: with no request
budget the loop has not exited).  C6. -/
theorem c6_empty_first_page {α : Type} (api : Api α) (state : String)
    (hempty : (api 1).breweries = []) :
    get_brewery_count api state 0 = none ∧
    ∀ fuel, 1 ≤ fuel → get_brewery_count api state fuel =
      some [("state", Val.str state), ("brewery_count", Val.nat 0)] := by
  have hstop : stopCond (api 1) 200 := Or.inr (Or.inl hempty)
  obtain ⟨hnone, hsome⟩ := countUpTo_firstStop api 1 (le_refl 1) hstop
    (by intro p hp1 hp2; omega)
  constructor
  · simp [get_brewery_count, countUpTo]
  · intro fuel hf
    have hcontrib : pageContrib (api 1) = 0 := by
      rw [pageContrib]
      simp [hempty]
    have hc := hsome fuel hf
    rw [hcontrib] at hc
    norm_num at hc
    simp [get_brewery_count, hc]

/-- A concrete API for witnesses: every page succeeds with an empty payload. -/
def wApiEmpty : Api Unit := fun _ => ⟨200, []⟩

theorem c6_empty_first_page_witness :
    get_brewery_count wApiEmpty "delaware" 0 = none ∧
    get_brewery_count wApiEmpty "delaware" 1 =
      some [("state", Val.str "delaware"), ("brewery_count", Val.nat 0)] := by
  have h := c6_empty_first_page wApiEmpty "delaware" (by decide)
  exact ⟨h.1, h.2 1 (by decide)⟩

/-- If some page p meets a stop condition, the loop exits within p page
requests: p units of fuel already produce a result.  C10. -/
theorem c10_loop_terminates {α : Type} (api : Api α) (state : String)
    (p : Nat) (hp : 1 ≤ p) (hstop : stopCond (api p) 200) :
    ∃ d, get_brewery_count api state p = some d := by
  have h : stopCond (api (1 + (p - 1))) 200 := by
    have harith : 1 + (p - 1) = p := by omega
    rwa [harith]
  obtain ⟨c, hc⟩ := countUpTo_terminates api 200 (p - 1) 1 0 h
  have hp2 : p - 1 + 1 = p := by omega
  rw [hp2] at hc
  refine ⟨[("state", Val.str state), ("brewery_count", Val.nat c)], ?_⟩
  simp [get_brewery_count, hc]

theorem c10_loop_terminates_witness :
    ∃ d, get_brewery_count wApiEmpty "ohio" 1 = some d :=
  c10_loop_terminates wApiEmpty "ohio" 1 (le_refl 1) (Or.inr (Or.inl rfl))

/-- Pages 1..n that succeed with exactly 200 records meet no stop condition. -/
theorem fullPrefix_not_stop {α : Type} (api : Api α) (n : Nat)
    (hfull : ∀ p, p ≤ n → 1 ≤ p →
      (api p).status_code = 200 ∧ (api p).breweries.length = 200) :
    ∀ p, p < n + 1 → 1 ≤ p → ¬ stopCond (api p) 200 := by
  intro p hp1 hp2 hstop
  obtain ⟨hs, hl⟩ := hfull p (by omega) hp2
  rcases hstop with h | h | h
  · exact h hs
  · rw [h] at hl
    simp at hl
  · omega

/-- The lengths of n full pages sum to 200 * n. -/
theorem fullPrefix_sum {α : Type} (api : Api α) (n : Nat)
    (hfull : ∀ p, p ≤ n → 1 ≤ p →
      (api p).status_code = 200 ∧ (api p).breweries.length = 200) :
    ∑ j ∈ Finset.range n, (api (1 + j)).breweries.length = 200 * n := by
  rw [Finset.sum_congr rfl
    (fun j hj => (hfull (1 + j)
      (by have := Finset.mem_range.mp hj; omega) (by omega)).2)]
  rw [Finset.sum_const, Finset.card_range, smul_eq_mul, Nat.mul_comm]

/-- If pages 1..n are delivered full (200 records each, n ≥ 1) and page
n+1 is empty, the loop has not exited within n requests and exits at
request n+1 with the correct total 200 * n: the trailing empty page costs
exactly one extra request.  C7. -/
theorem c7_exact_multiple_extra_request {α : Type} (api : Api α)
    (state : String) (n : Nat) (hn : 1 ≤ n)
    (hfull : ∀ p, p ≤ n → 1 ≤ p →
      (api p).status_code = 200 ∧ (api p).breweries.length = 200)
    (hnext : (api (n + 1)).breweries = []) :
    (∀ fuel, fuel ≤ n → get_brewery_count api state fuel = none) ∧
    (∀ fuel, n + 1 ≤ fuel → get_brewery_count api state fuel =
      some [("state", Val.str state),
        ("brewery_count", Val.nat (200 * n))]) := by
  have hstop : stopCond (api (n + 1)) 200 := Or.inr (Or.inl hnext)
  have hmin := fullPrefix_not_stop api n hfull
  obtain ⟨hnone, hsome⟩ := countUpTo_firstStop api (n + 1) (by omega) hstop hmin
  have hcontrib : pageContrib (api (n + 1)) = 0 := by
    rw [pageContrib]
    simp [hnext]
  have hsum : ∑ j ∈ Finset.range (n + 1 - 1),
      (api (1 + j)).breweries.length = 200 * n := by
    have h1 : n + 1 - 1 = n := by omega
    rw [h1]
    exact fullPrefix_sum api n hfull
  constructor
  · intro fuel hf
    simp [get_brewery_count, hnone fuel (by omega)]
  · intro fuel hf
    have hc := hsome fuel hf
    rw [hsum, hcontrib, Nat.add_zero] at hc
    simp [get_brewery_count, hc]

/-- A concrete API for witnesses: page 1 full (200 records), every later
page empty with success status. -/
def wApiFull : Api Unit := fun p =>
  if p = 1 then ⟨200, List.replicate 200 ()⟩ else ⟨200, []⟩

set_option maxRecDepth 4000 in
theorem c7_exact_multiple_extra_request_witness :
    get_brewery_count wApiFull "texas" 1 = none ∧
    get_brewery_count wApiFull "texas" 2 =
      some [("state", Val.str "texas"), ("brewery_count", Val.nat 200)] := by
  have h := c7_exact_multiple_extra_request wApiFull "texas" 1
    (by decide) (by decide) (by decide)
  exact ⟨h.1 1 (by decide), h.2 2 (by decide)⟩

/-- If pages 1..n are delivered full and page n+1 succeeds with r records,
0 < r < 200 (so the total 200 * n + r is not a multiple of 200), the loop
has not exited within n requests and exits at request n+1 — the short page
itself — with the correct total; no further request is issued.  C8. -/
theorem c8_short_final_page_stops {α : Type} (api : Api α) (state : String)
    (n r : Nat)
    (hfull : ∀ p, p ≤ n → 1 ≤ p →
      (api p).status_code = 200 ∧ (api p).breweries.length = 200)
    (hs : (api (n + 1)).status_code = 200)
    (hr : (api (n + 1)).breweries.length = r)
    (hr0 : 0 < r) (hr200 : r < 200) :
    (∀ fuel, fuel ≤ n → get_brewery_count api state fuel = none) ∧
    (∀ fuel, n + 1 ≤ fuel → get_brewery_count api state fuel =
      some [("state", Val.str state),
        ("brewery_count", Val.nat (200 * n + r))]) := by
  have hstop : stopCond (api (n + 1)) 200 := Or.inr (Or.inr (by omega))
  have hmin := fullPrefix_not_stop api n hfull
  obtain ⟨hnone, hsome⟩ := countUpTo_firstStop api (n + 1) (by omega) hstop hmin
  have hne : (api (n + 1)).breweries ≠ [] := by
    intro hcon
    rw [hcon] at hr
    simp at hr
    omega
  have hcontrib : pageContrib (api (n + 1)) = r := by
    rw [pageContrib, if_pos ⟨hs, by simp [hne]⟩]
    exact hr
  have hsum : ∑ j ∈ Finset.range (n + 1 - 1),
      (api (1 + j)).breweries.length = 200 * n := by
    have h1 : n + 1 - 1 = n := by omega
    rw [h1]
    exact fullPrefix_sum api n hfull
  constructor
  · intro fuel hf
    simp [get_brewery_count, hnone fuel (by omega)]
  · intro fuel hf
    have hc := hsome fuel hf
    rw [hsum, hcontrib] at hc
    simp [get_brewery_count, hc]

set_option maxRecDepth 4000 in
theorem c8_short_final_page_stops_witness :
    get_brewery_count wApiTwoPages "georgia" 1 = none ∧
    get_brewery_count wApiTwoPages "georgia" 2 =
      some [("state", Val.str "georgia"), ("brewery_count", Val.nat 205)] := by
  have h := c8_short_final_page_stops wApiTwoPages "georgia" 1 5
    (by decide) (by decide) (by decide) (by decide) (by decide)
  exact ⟨h.1 1 (by decide), h.2 2 (by decide)⟩

/-- For every input state sequence and every completion order that covers
every task index, the dispatcher returns exactly one result per input
state, in input order: entry i is the completed result for state i, no
matter how the underlying fetches interleave.  C4. -/
theorem c4_results_in_input_order {α : Type} (api : String → Api α)
    (fuel : Nat) (states : List String) (order : List Nat)
    (hcover : ∀ i, i < states.length → i ∈ order) :
    get_brewery_counts_for_states api fuel states order =
      states.map (fun s => some (get_brewery_count (api s) s fuel)) := by
  unfold get_brewery_counts_for_states
  rw [gatherRun_eq_map_some _ _
    (by intro i hi; rw [List.length_map] at hi; exact hcover i hi)]
  rw [List.map_map]
  rfl

theorem c4_results_in_input_order_witness :
    get_brewery_counts_for_states (fun _ => wApiEmpty) 1
        ["maryland", "virginia"] [1, 0] =
      [some (some [("state", Val.str "maryland"), ("brewery_count", Val.nat 0)]),
       some (some [("state", Val.str "virginia"), ("brewery_count", Val.nat 0)])] := by
  rw [c4_results_in_input_order (fun _ => wApiEmpty) 1
    ["maryland", "virginia"] [1, 0] (by decide)]
  decide

/-- For every completion order covering every task, a state/count dict
appears among the dispatcher's results exactly when it appears among the
serial per-state results over the same states and the same API responses.
C5. -/
theorem c5_concurrent_matches_serial {α : Type} (api : String → Api α)
    (fuel : Nat) (states : List String) (order : List Nat)
    (hcover : ∀ i, i < states.length → i ∈ order) (d : PyDict) :
    (some (some d) ∈ get_brewery_counts_for_states api fuel states order) ↔
      (some d ∈ serial_brewery_counts api fuel states) := by
  unfold get_brewery_counts_for_states
  rw [gatherRun_eq_map_some _ _
    (by intro i hi; rw [List.length_map] at hi; exact hcover i hi)]
  rw [List.mem_map_of_injective (Option.some_injective _)]
  exact Iff.rfl

theorem c5_concurrent_matches_serial_witness :
    (some (some [("state", Val.str "maryland"), ("brewery_count", Val.nat 0)]) ∈
        get_brewery_counts_for_states (fun _ => wApiEmpty) 1 ["maryland"] [0]) ↔
      (some [("state", Val.str "maryland"), ("brewery_count", Val.nat 0)] ∈
        serial_brewery_counts (fun _ => wApiEmpty) 1 ["maryland"]) :=
  c5_concurrent_matches_serial (fun _ => wApiEmpty) 1 ["maryland"] [0]
    (by decide) [("state", Val.str "maryland"), ("brewery_count", Val.nat 0)]

/-- The state string flows to the result and to the URL verbatim: any dict
the function returns holds the input string unchanged under the state key,
and the request URL is the fixed query text with the raw input spliced in:
no lowercasing, underscore substitution or other normalization anywhere.
C9. -/
theorem c9_state_passed_verbatim {α : Type} (api : Api α) (state : String)
    (fuel per_page page : Nat) (d : PyDict)
    (h : get_brewery_count api state fuel = some d) :
    List.lookup "state" d = some (Val.str state) ∧
    brewery_url state per_page page =
      "https://api.openbrewerydb.org/v1/breweries?by_state=" ++ state ++
        ("&per_page=" ++ toString per_page ++ "&page=" ++ toString page) := by
  constructor
  · rw [get_brewery_count] at h
    cases hc : countUpTo api 200 fuel 1 0 with
    | none =>
      rw [hc] at h
      simp at h
    | some c =>
      rw [hc] at h
      simp at h
      rw [← h]
      rfl
  · rw [brewery_url]
    simp [String.append_assoc]

theorem c9_state_passed_verbatim_witness :
    List.lookup "state"
        [("state", Val.str "new_york"), ("brewery_count", Val.nat 0)] =
      some (Val.str "new_york") ∧
    brewery_url "new_york" 200 1 =
      "https://api.openbrewerydb.org/v1/breweries?by_state=" ++ "new_york" ++
        ("&per_page=" ++ toString 200 ++ "&page=" ++ toString 1) :=
  c9_state_passed_verbatim wApiEmpty "new_york" 1 200 1
    [("state", Val.str "new_york"), ("brewery_count", Val.nat 0)] (by decide)

/-- The mocked Maryland API of the spec's example: page 1 delivers 100
records, page 2 delivers 9, later pages are empty; every response succeeds. -/
def marylandApi : Api Unit := fun page =>
  if page = 1 then ⟨200, List.replicate 100 ()⟩
  else if page = 2 then ⟨200, List.replicate 9 ()⟩
  else ⟨200, []⟩

/-- On the spec's mocked responses (page 1: 100 records, page 2: 9 records)
the code stops already at page 1, whose 100 records are fewer than the page
size 200, and returns 100 — not 109 — and the dict's count key is named
brewery_count, not count.  Fuel 2 covers both mocked pages; the run exits
during the first request.  C3 counterexample. -/
theorem c3_maryland_counterexample :
    get_brewery_count marylandApi "maryland" 2 =
      some [("state", Val.str "maryland"), ("brewery_count", Val.nat 100)] ∧
    get_brewery_count marylandApi "maryland" 2 ≠
      some [("state", Val.str "maryland"), ("count", Val.nat 109)] := by
  constructor <;> decide

/-- On the mocked responses of the spec's example, get_brewery_count on
input maryland returns {state: maryland, brewery_count: 100} as soon as at
least one page request is allowed: the short first page (100 < 200) ends
the pagination.  C3 amended. -/
theorem c3_maryland_amended (fuel : Nat) (h : 1 ≤ fuel) :
    get_brewery_count marylandApi "maryland" fuel =
      some [("state", Val.str "maryland"), ("brewery_count", Val.nat 100)] := by
  have h1 : countUpTo marylandApi 200 1 1 0 = some 100 := by decide
  have h2 := countUpTo_mono marylandApi 200 1 fuel 1 0 100 h h1
  simp [get_brewery_count, h2]

theorem c3_maryland_amended_witness :
    get_brewery_count marylandApi "maryland" 1 =
      some [("state", Val.str "maryland"), ("brewery_count", Val.nat 100)] :=
  c3_maryland_amended 1 (Nat.le_refl 1)
